import Mathlib

/-!
# Verification of the memory-bot core against its specification

Shallow embedding of the repository's core modules:

* `core/utils/__init__.py`   — `TokenCounter` (`count_tokens`, `count_message`,
  `count_messages`); the tiktoken encoding itself is an external library, so
  every definition is parameterised by an arbitrary encoding-length function
  `enc : String → Nat` (the code's `len(self.encoding.encode(text))`).
* `core/session/builder.py`  — `ContextBuilder.build`,
  `ContextBuilder._truncate_to_budget`, `ContextBuilder._format_memory_results`.
* `core/session/models.py`   — `Session`, `ContextConfig`, `BuiltContext`.
* `core/memory/models.py`    — `MemoryEntry`, `SearchQuery`, `SearchResult`.
* `core/memory/parser.py`    — `MarkdownParser.parse_content`.
* `core/memory/indexer.py`   — `MemoryIndexer.reindex` / `index_file`.
* `core/memory/database.py`  — schema triggers, `insert`, `clear`,
  `_sanitize_fts_query`, and the score filter used by the builder.
* `core/session/database.py` — `SessionDatabase.save_session` / `load_session`.

Python `dict` metadata is modelled as an association list; `json.dumps`
followed by `json.loads` on such a dict is the identity on its value, so the
serialisation round trip through the database is modelled as storing the value
itself.  BM25 scores (Python floats used only in order comparisons) are
modelled as rationals.  SQLite state is modelled as explicit record states,
with the schema triggers of `create_schema` folded into each write operation,
exactly as they fire on the corresponding SQL statement.
-/

/-- `core/llm/models.py` — `Message` dataclass: role, content, metadata. -/
structure Message where
  role : String
  content : String
  metadata : List (String × String) := []
deriving DecidableEq, Repr

/-- `core/session/models.py` — `ContextConfig` dataclass. -/
structure ContextConfig where
  max_tokens : Int := 8000
  system_prompt : String := "You are a helpful assistant."
  memory_max_results : Nat := 3
  memory_min_score : Rat := 0
deriving DecidableEq, Repr

/-- `core/memory/models.py` — `MemoryEntry` dataclass (timestamps as `Option Nat`). -/
structure MemoryEntry where
  id : Option Nat
  source_file : String
  «section» : String
  content : String
  tags : List String := []
  metadata : List (String × String) := []
  created_at : Option Nat := none
  updated_at : Option Nat := none
deriving DecidableEq, Repr

/-- `core/memory/models.py` — `SearchQuery` dataclass. -/
structure SearchQuery where
  query : String
  limit : Nat := 10
  source_file : Option String := none
deriving DecidableEq, Repr

/-- `core/memory/models.py` — `SearchResult` dataclass (score is the raw BM25
value, modelled as a rational). -/
structure SearchResult where
  entry : MemoryEntry
  score : Rat
  snippet : String
deriving DecidableEq, Repr

/-- `core/session/models.py` — `Session` dataclass (timestamps as `Option Nat`). -/
structure Session where
  id : String
  messages : List Message := []
  created_at : Option Nat := none
  updated_at : Option Nat := none
  metadata : List (String × String) := []
deriving DecidableEq, Repr

/-- `core/session/models.py` — `BuiltContext` dataclass. -/
structure BuiltContext where
  messages : List Message
  token_count : Nat
  memory_results : List SearchResult := []
  truncated : Bool := false
deriving DecidableEq, Repr

/-! ## TokenCounter (`core/utils/__init__.py`) -/

/-- `TokenCounter.count_tokens`: `if not text: return 0` then
`len(self.encoding.encode(text))`, the latter abstracted as `enc text`. -/
def count_tokens (enc : String → Nat) (text : String) : Nat :=
  if text = "" then 0 else enc text

/-- `TokenCounter.count_message`: 3 base tokens plus role plus content. -/
def count_message (enc : String → Nat) (m : Message) : Nat :=
  3 + count_tokens enc m.role + count_tokens enc m.content

/-- `TokenCounter.count_messages`: `if not messages: return 0`, otherwise the
sum of `count_message` over the list plus the reply-priming overhead 3. -/
def count_messages (enc : String → Nat) (messages : List Message) : Nat :=
  if messages = [] then 0
  else (messages.map (count_message enc)).sum + 3

/-! ## ContextBuilder (`core/session/builder.py`) -/

/-- The loop of `_truncate_to_budget` separating system messages from
conversation: `if msg.role == "system" and i < 2` keeps the message in
`system_messages`, everything else goes to `conversation`, scanning with
index `i`. Returns `(system_messages, conversation)`. -/
def partitionSys : Nat → List Message → List Message × List Message
  | _, [] => ([], [])
  | i, m :: ms =>
    let (s, c) := partitionSys (i + 1) ms
    if m.role = "system" ∧ i < 2 then (m :: s, c) else (s, m :: c)

/-- The greedy loop of `_truncate_to_budget` over `reversed(conversation)`:
keep a message while `current_tokens + msg_tokens <= available_budget`
(each `msg_tokens` is `count_messages([msg])`), prepending kept messages
(`kept_conversation.insert(0, msg)`), and `break` at the first message that
does not fit.  The argument list is the reversed conversation. -/
def keepRecent (enc : String → Nat) (avail : Int) (cur : Int) :
    List Message → List Message
  | [] => []
  | m :: rest =>
    let t : Int := count_messages enc [m]
    if cur + t ≤ avail then keepRecent enc avail (cur + t) rest ++ [m]
    else []

/-- `ContextBuilder._truncate_to_budget`: returns the truncated message list
and its recomputed token count. -/
def truncate_to_budget (enc : String → Nat) (max_tokens : Int)
    (messages : List Message) : List Message × Nat :=
  if messages = [] then ([], 0)
  else
    let sc := partitionSys 0 messages
    let system_tokens : Nat := count_messages enc sc.1
    let available_budget : Int := max_tokens - system_tokens
    if available_budget ≤ 0 then (sc.1, system_tokens)
    else
      let kept := keepRecent enc available_budget 0 sc.2.reverse
      let truncated := sc.1 ++ kept
      (truncated, count_messages enc truncated)

/-- `ContextBuilder._format_memory_results`: numbered `[section]` / snippet
lines joined with newlines. -/
def format_memory_results (results : List SearchResult) : String :=
  String.intercalate "\n"
    (results.enum.foldr
      (fun ri acc =>
        (toString (ri.1 + 1) ++ ". [" ++ ri.2.entry.«section» ++ "]") ::
        ("   " ++ ri.2.snippet) :: "" :: acc) [])

/-- The score filter of `ContextBuilder.build`:
`if result.score >= self.config.memory_min_score: memory_results.append(result)`. -/
def filterByScore (min_score : Rat) (results : List SearchResult) :
    List SearchResult :=
  results.filter (fun r => min_score ≤ r.score)

/-- The message list assembled by `ContextBuilder.build` before the budget
check: optional system-prompt message, optional memory message (only when a
memory store is configured, the query is truthy, and some results pass the
score filter), then the session history.  `memory` abstracts the
`MemoryDatabase.search` collaborator. -/
def assembleMessages (memory : Option (SearchQuery → List SearchResult))
    (config : ContextConfig) (session : Session) (query : Option String) :
    List Message :=
  let sysMsgs : List Message :=
    if config.system_prompt ≠ "" then
      [{ role := "system", content := config.system_prompt }] else []
  let memory_results :=
    match memory, query with
    | some search, some q =>
      if q ≠ "" then
        filterByScore config.memory_min_score
          (search { query := q, limit := config.memory_max_results })
      else []
    | _, _ => []
  let memMsgs : List Message :=
    if memory_results ≠ [] then
      [{ role := "system",
         content := "Relevant information:\n" ++
           format_memory_results memory_results }]
    else []
  sysMsgs ++ memMsgs ++ session.messages

/-- The filtered memory results computed by `ContextBuilder.build` (returned
in the `BuiltContext`). -/
def assembleMemoryResults (memory : Option (SearchQuery → List SearchResult))
    (config : ContextConfig) (query : Option String) : List SearchResult :=
  match memory, query with
  | some search, some q =>
    if q ≠ "" then
      filterByScore config.memory_min_score
        (search { query := q, limit := config.memory_max_results })
    else []
  | _, _ => []

/-- `ContextBuilder.build`: assemble, count, truncate if over budget. -/
def build (enc : String → Nat) (memory : Option (SearchQuery → List SearchResult))
    (config : ContextConfig) (session : Session) (query : Option String) :
    BuiltContext :=
  let messages := assembleMessages memory config session query
  let memory_results := assembleMemoryResults memory config query
  let token_count := count_messages enc messages
  if (token_count : Int) > config.max_tokens then
    let tm := truncate_to_budget enc config.max_tokens messages
    { messages := tm.1, token_count := tm.2,
      memory_results := memory_results, truncated := true }
  else
    { messages := messages, token_count := token_count,
      memory_results := memory_results, truncated := false }

/-! ## MarkdownParser (`core/memory/parser.py`)

Python string primitives (`split('\n')`, `startswith('#')`, `lstrip('#')`,
`strip()`, `'\n'.join`) are modelled structurally on the character list of the
string, so that all definitions reduce by kernel computation.  `strip()` trims
the ASCII whitespace characters. -/

/-- Python whitespace for `str.strip()` (ASCII subset). -/
def pyIsSpace (c : Char) : Bool :=
  c = ' ' || c = '\t' || c = '\n' || c = '\r' || c = '\x0b' || c = '\x0c'

/-- `'\n'.join(lines)` on character lists. -/
def joinNl : List (List Char) → List Char
  | [] => []
  | [l] => l
  | l :: ls => l ++ '\n' :: joinNl ls

/-- `text.split('\n')` on a character list; always returns at least one line. -/
def splitNl : List Char → List (List Char)
  | [] => [[]]
  | c :: cs =>
    match splitNl cs with
    | [] => [[c]]
    | l :: ls => if c = '\n' then [] :: l :: ls else (c :: l) :: ls

/-- `s.strip()` on a character list. -/
def stripChars (l : List Char) : List Char :=
  ((l.dropWhile pyIsSpace).reverse.dropWhile pyIsSpace).reverse

/-- `line.startswith('#')`. -/
def startsWithHash : List Char → Bool
  | '#' :: _ => true
  | _ => false

/-- `line.lstrip('#').strip()` — the section label of a heading line. -/
def headingLabel (line : List Char) : List Char :=
  stripChars (line.dropWhile (· = '#'))

/-- The entry flushed at a section boundary of `parse_content`:
`if current_section and current_content:` join the body, `strip()` it, and
keep it only if non-empty. -/
def flushSection (source_file : String) (current_section : List Char)
    (current_content : List (List Char)) : List MemoryEntry :=
  if current_section ≠ [] ∧ current_content ≠ [] then
    let entry_content := stripChars (joinNl current_content)
    if entry_content ≠ [] then
      [{ id := none, source_file := source_file,
         «section» := String.mk current_section,
         content := String.mk entry_content }]
    else []
  else []

/-- The line loop of `MarkdownParser.parse_content`. -/
def parseLines (source_file : String) (current_section : List Char)
    (current_content : List (List Char)) : List (List Char) → List MemoryEntry
  | [] => flushSection source_file current_section current_content
  | line :: rest =>
    if startsWithHash line then
      flushSection source_file current_section current_content ++
        parseLines source_file (headingLabel line) [] rest
    else
      parseLines source_file current_section (current_content ++ [line]) rest

/-- `MarkdownParser.parse_content`. -/
def parse_content (content : String) (source_file : String := "") :
    List MemoryEntry :=
  parseLines source_file [] [] (splitNl content.data)

/-- Modelled from the spec: a heading line per the specification's words is a
line whose *first non-space character* begins the heading marker (the code
instead requires the marker at column 0). -/
def specIsHeading (line : List Char) : Bool :=
  startsWithHash (line.dropWhile (· = ' '))

/-- Modelled from the spec: the label of a spec heading line — the heading
text with marker and surrounding whitespace stripped. -/
def specLabel (line : List Char) : List Char :=
  stripChars ((line.dropWhile (· = ' ')).dropWhile (· = '#'))

/-- Modelled from the spec: flush of the parser described by the claim — one
entry per section whose trimmed body is non-empty (text before the first
heading is discarded; `none` means no heading has been seen yet). -/
def specFlush (source_file : String) : Option (List Char) →
    List (List Char) → List MemoryEntry
  | none, _ => []
  | some sect, body =>
    let entry_content := stripChars (joinNl body)
    if entry_content ≠ [] then
      [{ id := none, source_file := source_file,
         «section» := String.mk sect,
         content := String.mk entry_content }]
    else []

/-- Modelled from the spec: the line loop of the parser described by the
claim, with heading detection on the first non-space character. -/
def specParseLines (source_file : String) : Option (List Char) →
    List (List Char) → List (List Char) → List MemoryEntry
  | cur, body, [] => specFlush source_file cur body
  | cur, body, line :: rest =>
    if specIsHeading line then
      specFlush source_file cur body ++
        specParseLines source_file (some (specLabel line)) [] rest
    else
      specParseLines source_file cur (body ++ [line]) rest

/-- Modelled from the spec: the parser exactly as the claim words it. -/
def spec_parse (content : String) (source_file : String := "") :
    List MemoryEntry :=
  specParseLines source_file none [] (splitNl content.data)

/-! ## Query sanitization (`core/memory/database.py`) -/

/-- `MemoryDatabase._sanitize_fts_query`: drop control characters other than
tab/newline/carriage-return, truncate to 200 characters, remove `?`, double
`"`. -/
def sanitize_fts_query (query : String) : String :=
  if query = "" then ""
  else
    let s1 := query.data.filter
      (fun c => 32 ≤ c.toNat || c = '\t' || c = '\n' || c = '\r')
    let s2 := s1.take 200
    let s3 := s2.filter (fun c => c ≠ '?')
    let s4 := s3.flatMap (fun c => if c = '"' then ['"', '"'] else [c])
    String.mk s4

/-- Modelled from the spec: the FTS5 MATCH grammar (part of sqlite3, outside
this repository) rejects a query consisting of a bare wildcard token, and
rejects the empty query — the docstring of `_sanitize_fts_query` itself lists
`*` among the characters that cause FTS5 syntax errors, and the spec requires
an empty sanitized string to yield an empty result set rather than reach the
engine.  Only the two cases needed by the claim are modelled. -/
def ftsQueryMalformed (s : String) : Bool :=
  s = "" || s = "*"

/-- The MATCH execution path of `MemoryDatabase.search`: sanitize the query
text and hand it to the FTS5 engine; a malformed term raises
`sqlite3.OperationalError`, otherwise the engine's matches are returned
(`engine` abstracts the FTS5 ranking, which is outside this repository). -/
def search_outcome (engine : String → List SearchResult) (q : SearchQuery) :
    Except String (List SearchResult) :=
  let search_term := sanitize_fts_query q.query
  if ftsQueryMalformed search_term then
    Except.error "sqlite3.OperationalError: fts5: syntax error"
  else
    Except.ok (engine search_term)

/-! ## MemoryDatabase state (`core/memory/database.py`)

The SQLite tables created by `create_schema` are modelled as explicit lists of
rows.  The three triggers `memories_ai`, `memories_au`, `memories_ad` fire on
the corresponding SQL statement, so their effect is folded into each write
operation below exactly as SQLite executes it (`FOR EACH ROW`). -/

/-- A row of the `memories` base table. -/
structure MemRow where
  id : Nat
  source_file : String
  «section» : String
  content : String
  tags : List String
deriving DecidableEq, Repr

/-- A row of the `memories_fts` index table (`rowid` is set to the base row's
`id` by the `memories_ai` trigger). -/
structure FtsRow where
  rowid : Nat
  content : String
  «section» : String
  tags : List String
deriving DecidableEq, Repr

/-- The state of a connected `MemoryDatabase`: base table, FTS index, and the
next AUTOINCREMENT id. -/
structure MemDB where
  rows : List MemRow
  fts : List FtsRow
  nextId : Nat
deriving DecidableEq, Repr

/-- A freshly created schema: both tables empty, AUTOINCREMENT starts at 1. -/
def MemDB.empty : MemDB := { rows := [], fts := [], nextId := 1 }

/-- `MemoryDatabase.insert`: `INSERT INTO memories ...` assigns the next
AUTOINCREMENT id; the `memories_ai` trigger inserts the paired
`memories_fts` row with `rowid = new.id`.  Returns the new state and
`cursor.lastrowid`. -/
def MemDB.insert (db : MemDB) (e : MemoryEntry) : MemDB × Nat :=
  let i := db.nextId
  ({ rows := db.rows ++
       [{ id := i, source_file := e.source_file, «section» := e.«section»,
          content := e.content, tags := e.tags }],
     fts := db.fts ++
       [{ rowid := i, content := e.content, «section» := e.«section»,
          tags := e.tags }],
     nextId := i + 1 }, i)

/-- `DELETE FROM memories WHERE p` (used by `MemoryDatabase.clear` with a
true predicate and by `MemoryIndexer.reindex` with a `source_file` match);
the `memories_ad` trigger deletes the `memories_fts` row with
`rowid = old.id` for each deleted row. -/
def MemDB.deleteWhere (db : MemDB) (p : MemRow → Bool) : MemDB :=
  let deletedIds := (db.rows.filter p).map (·.id)
  { rows := db.rows.filter (fun r => !(p r)),
    fts := db.fts.filter (fun f => !(deletedIds.contains f.rowid)),
    nextId := db.nextId }

/-- `MemoryDatabase.clear`: `DELETE FROM memories`. -/
def MemDB.clear (db : MemDB) : MemDB :=
  db.deleteWhere (fun _ => true)

/-- `UPDATE memories SET section/content/tags ... WHERE p` (the only update
shape the schema anticipates — `new.id = old.id`); the `memories_au` trigger
rewrites the `memories_fts` row with `rowid = new.id` for each updated row. -/
def MemDB.updateWhere (db : MemDB) (p : MemRow → Bool)
    (f : MemRow → String × String × List String) : MemDB :=
  { rows := db.rows.map (fun r =>
      if p r then
        { r with «section» := (f r).1, content := (f r).2.1, tags := (f r).2.2 }
      else r),
    fts := db.fts.map (fun fr =>
      match db.rows.find? (fun r => r.id = fr.rowid && p r) with
      | some r =>
        { fr with «section» := (f r).1, content := (f r).2.1, tags := (f r).2.2 }
      | none => fr),
    nextId := db.nextId }

/-- `MemoryIndexer.index_file` after the file has been read and parsed:
insert every parsed entry, collecting the inserted ids. -/
def MemDB.insertAll (db : MemDB) : List MemoryEntry → MemDB × List Nat
  | [] => (db, [])
  | e :: es =>
    let (db1, i) := db.insert e
    let (db2, is) := db1.insertAll es
    (db2, i :: is)

/-- `MemoryIndexer.reindex`: `DELETE FROM memories WHERE source_file = ?`,
then `index_file` on the parsed document text. -/
def MemDB.reindex (db : MemDB) (file_path : String) (doc : String) :
    MemDB × List Nat :=
  let cleared := db.deleteWhere (fun r => r.source_file = file_path)
  cleared.insertAll (parse_content doc file_path)

/-- The write operations a `MemoryDatabase` state can undergo. -/
inductive MemOp where
  | ins (e : MemoryEntry)
  | del (p : MemRow → Bool)
  | upd (p : MemRow → Bool) (f : MemRow → String × String × List String)
  | clr
  | reidx (file_path : String) (doc : String)

/-- Apply one write operation. -/
def MemDB.applyOp (db : MemDB) : MemOp → MemDB
  | .ins e => (db.insert e).1
  | .del p => db.deleteWhere p
  | .upd p f => db.updateWhere p f
  | .clr => db.clear
  | .reidx fp doc => (db.reindex fp doc).1

/-- Apply a sequence of write operations to a state. -/
def MemDB.applyOps (db : MemDB) (ops : List MemOp) : MemDB :=
  ops.foldl MemDB.applyOp db

/-- The base-table/index consistency invariant: the FTS index holds exactly
one row per base row, keyed 1:1 by the entry id (positionally equal key
lists with no duplicate key), and every id is below the AUTOINCREMENT
counter. -/
def MemDB.Inv (db : MemDB) : Prop :=
  db.fts.map (·.rowid) = db.rows.map (·.id) ∧
  (db.rows.map (·.id)).Nodup ∧
  ∀ r ∈ db.rows, r.id < db.nextId

/-- The entries currently stored for a source file, up to the
store-assigned id (section, content and tags). -/
def MemDB.entriesFor (db : MemDB) (file_path : String) :
    List (String × String × List String) :=
  (db.rows.filter (fun r => r.source_file = file_path)).map
    (fun r => (r.«section», r.content, r.tags))

/-! ## SessionDatabase (`core/session/database.py`)

Timestamps (`datetime` / SQLite `CURRENT_TIMESTAMP`) are modelled as natural
numbers; `isoformat` / `fromisoformat` round-trip, so they are modelled as the
identity.  `json.dumps`/`json.loads` of a metadata dict round-trip and
`json.dumps` of a dict is never the empty string, so the `if row["metadata"]`
guard of `load_session` always takes the decoded branch. -/

/-- A row of the `sessions` table. -/
structure SessRow where
  id : String
  created_at : Nat
  updated_at : Nat
  metadata : List (String × String)
deriving DecidableEq, Repr

/-- A row of the `messages` table. -/
structure MsgRow where
  rowid : Nat
  session_id : String
  role : String
  content : String
  metadata : List (String × String)
  created_at : Nat
deriving DecidableEq, Repr

/-- The state of a connected `SessionDatabase`. -/
structure SessionDB where
  sessions : List SessRow
  messages : List MsgRow
  nextMsgId : Nat
deriving DecidableEq, Repr

/-- A freshly created schema. -/
def SessionDB.empty : SessionDB := { sessions := [], messages := [], nextMsgId := 1 }

/-- `SessionDatabase.save_session`: `INSERT OR REPLACE` the session row
(timestamps defaulting to `now`), `DELETE FROM messages WHERE session_id = ?`,
then insert every message of the session in order; the i-th insert receives
`CURRENT_TIMESTAMP` `ts i` (nondecreasing in `i` for a wall clock). -/
def SessionDB.save_session (db : SessionDB) (s : Session) (now : Nat)
    (ts : Nat → Nat) : SessionDB :=
  let sessions' := db.sessions.filter (fun r => r.id ≠ s.id) ++
    [{ id := s.id, created_at := s.created_at.getD now,
       updated_at := s.updated_at.getD now, metadata := s.metadata }]
  let keptMessages := db.messages.filter (fun r => r.session_id ≠ s.id)
  let newRows := s.messages.enum.map (fun im =>
    { rowid := db.nextMsgId + im.1, session_id := s.id, role := im.2.role,
      content := im.2.content, metadata := im.2.metadata,
      created_at := ts im.1 })
  { sessions := sessions',
    messages := keptMessages ++ newRows,
    nextMsgId := db.nextMsgId + s.messages.length }

/-- Stable insertion of a row into a list sorted by `created_at` (a row is
placed before the first strictly later row, after equal timestamps). -/
def insertByTs (r : MsgRow) : List MsgRow → List MsgRow
  | [] => [r]
  | x :: xs =>
    if r.created_at ≤ x.created_at then r :: x :: xs else x :: insertByTs r xs

/-- `ORDER BY created_at ASC` over the rows in storage order, modelled as a
stable sort. -/
def sortByTs : List MsgRow → List MsgRow
  | [] => []
  | x :: xs => insertByTs x (sortByTs xs)

/-- `SessionDatabase.load_session`: find the session row by id, collect its
message rows ordered by `created_at`, and rebuild the `Session`. -/
def SessionDB.load_session (db : SessionDB) (session_id : String) :
    Option Session :=
  match db.sessions.find? (fun r => r.id = session_id) with
  | none => none
  | some row =>
    let msgRows := sortByTs (db.messages.filter
      (fun r => r.session_id = session_id))
    some { id := row.id,
           messages := msgRows.map (fun r =>
             { role := r.role, content := r.content, metadata := r.metadata }),
           created_at := some row.created_at,
           updated_at := some row.updated_at,
           metadata := row.metadata }

/-! ## Heap model of `ContextBuilder.build` (frame behaviour)

Python list objects are heap cells; `build` allocates a fresh `messages` list,
appends to it, extends it with the contents of the session's list, and the
truncation helper builds further fresh lists.  The session's own list is only
ever read.  The heap holds the list objects; each mutation step of the code is
a write to the cell it targets. -/

/-- A heap of Python list-of-Message objects, addressed by position. -/
structure PyHeap where
  cells : List (List Message)
deriving DecidableEq, Repr

/-- Read the list object at an address (absent addresses read as empty). -/
def PyHeap.read (h : PyHeap) (a : Nat) : List Message :=
  h.cells.getD a []

/-- Overwrite the list object at an address. -/
def PyHeap.write (h : PyHeap) (a : Nat) (v : List Message) : PyHeap :=
  ⟨h.cells.set a v⟩

/-- Allocate a fresh list object, returning the new heap and its address. -/
def PyHeap.alloc (h : PyHeap) (v : List Message) : PyHeap × Nat :=
  (⟨h.cells ++ [v]⟩, h.cells.length)

/-- `ContextBuilder.build` with the heap explicit: the session's message list
lives at `sessAddr`; `messages = []` allocates a fresh cell, the two
conditional `append`s and the `extend` write to that cell, truncation builds
its result in further fresh cells.  Returns the built context and the final
heap. -/
def buildProg (enc : String → Nat)
    (memory : Option (SearchQuery → List SearchResult))
    (config : ContextConfig) (query : Option String)
    (h0 : PyHeap) (sessAddr : Nat) : BuiltContext × PyHeap :=
  let a1 := h0.alloc []
  let h1 := a1.1
  let mA := a1.2
  let h2 := h1.write mA (h1.read mA ++
    (if config.system_prompt ≠ "" then
      [{ role := "system", content := config.system_prompt }] else []))
  let memory_results := assembleMemoryResults memory config query
  let h3 := h2.write mA (h2.read mA ++
    (if memory_results ≠ [] then
      [{ role := "system",
         content := "Relevant information:\n" ++
           format_memory_results memory_results }]
    else []))
  let h4 := h3.write mA (h3.read mA ++ h3.read sessAddr)
  let token_count := count_messages enc (h4.read mA)
  if (token_count : Int) > config.max_tokens then
    let tm := truncate_to_budget enc config.max_tokens (h4.read mA)
    let a2 := h4.alloc tm.1
    ({ messages := a2.1.read a2.2, token_count := tm.2,
       memory_results := memory_results, truncated := true }, a2.1)
  else
    ({ messages := h4.read mA, token_count := token_count,
       memory_results := memory_results, truncated := false }, h4)

/-! ## Definitions used to state the truncation and parsing properties -/

/-- The token weight the greedy truncation loop charges for a list of
conversation messages: each kept message costs `count_messages([msg])`,
i.e. `count_message` plus the per-call priming overhead 3. -/
def tokSum (enc : String → Nat) (l : List Message) : Int :=
  (l.map (fun m => (count_message enc m : Int) + 3)).sum

/-- Modelled from the amended claim: group lines into sections — each line
beginning with `#` at column 0 opens a section, whose body is the run of
non-heading lines that follows; lines before the first heading are
discarded. -/
def sectionBlocks : List (List Char) → List (List Char × List (List Char))
  | [] => []
  | line :: rest =>
    if startsWithHash line then
      (headingLabel line, rest.takeWhile (fun l => !startsWithHash l)) ::
        sectionBlocks (rest.dropWhile (fun l => !startsWithHash l))
    else
      sectionBlocks rest
termination_by l => l.length
decreasing_by
  · exact Nat.lt_succ_of_le (List.dropWhile_sublist _).length_le
  · simp

/-- Modelled from the amended claim: the entry a section yields — one entry
when the label is non-empty and the body, joined and trimmed, is non-empty,
nothing otherwise. -/
def sectionEntry (source_file : String) (sb : List Char × List (List Char)) :
    Option MemoryEntry :=
  let body := stripChars (joinNl sb.2)
  if sb.1 ≠ [] ∧ body ≠ [] then
    some { id := none, source_file := source_file,
           «section» := String.mk sb.1, content := String.mk body }
  else none

/-- Modelled from the amended claim: one entry per section whose label is
non-empty and whose body, joined and trimmed, is non-empty. -/
def amended_parse (content : String) (source_file : String := "") :
    List MemoryEntry :=
  (sectionBlocks (splitNl content.data)).filterMap (sectionEntry source_file)

/-! ## Theorems -/

/-- **C3** — the claim fails on the code and the code contradicts its own
docstring: `_sanitize_fts_query` documents `*` as a character that causes
FTS5 syntax errors and promises a query "safe for FTS5", yet it passes a
bare wildcard through unchanged, and `search` passes an empty sanitized
string straight to `MATCH`; in both cases the FTS5 engine raises, so
`search("*")` and `search("")` raise instead of returning a result list. -/
theorem C3_search_raises_on_wildcard :
    sanitize_fts_query "*" = "*" ∧ sanitize_fts_query "" = "" ∧
    ∀ engine, search_outcome engine { query := "*" } =
        Except.error "sqlite3.OperationalError: fts5: syntax error" ∧
      search_outcome engine { query := "" } =
        Except.error "sqlite3.OperationalError: fts5: syntax error" :=
  ⟨rfl, rfl, fun _ => ⟨rfl, rfl⟩⟩

/-- **C7** — counterexample to the claim as stated: on the empty message
sequence `count_messages` returns 0 (the code's `if not messages: return 0`
guard), not the claimed sum-plus-reply-priming-overhead 3. -/
theorem C7_count_messages_empty_cex :
    count_messages (fun s => s.length) [] ≠
      (([] : List Message).map (count_message (fun s => s.length))).sum + 3 := by
  decide

/-- **C7 amended** — `count_message(m) = count(role) + count(content) + 3`
for every message, and for every *non-empty* sequence `count_messages` is
the sum of `count_message` plus the reply-priming overhead 3; the empty
sequence short-circuits to 0. -/
theorem C7_count_messages_amended (enc : String → Nat) :
    (∀ m, count_message enc m =
      count_tokens enc m.role + count_tokens enc m.content + 3) ∧
    count_messages enc [] = 0 ∧
    ∀ messages : List Message, messages ≠ [] →
      count_messages enc messages =
        (messages.map (count_message enc)).sum + 3 := by
  refine ⟨fun m => ?_, rfl, fun msgs h => ?_⟩
  · simp [count_message]; omega
  · simp [count_messages, h]

/-- **C7 amended, witness** — the amended formula evaluated on a concrete
one-message list. -/
theorem C7_count_messages_amended_witness :
    count_messages (fun s => s.length) [{ role := "user", content := "hi" }] =
      ([({ role := "user", content := "hi" } : Message)].map
        (count_message (fun s => s.length))).sum + 3 :=
  (C7_count_messages_amended (fun s => s.length)).2.2 _ (by decide)

/-- **C9** — counterexample to the claim as stated: with
`memory_min_score = 0`, a result of BM25 score `-5` (more relevant under
the lower-is-better convention) is excluded by `build`'s
`score >= memory_min_score` filter while a result of score `2` (less
relevant) is kept, so an excluded result is ranked *better*, not worse,
than a kept one. -/
theorem C9_threshold_cex :
    (build (fun s => s.length)
        (some (fun _ =>
          [{ entry := { id := some 1, source_file := "f", «section» := "s1",
                        content := "c1" }, score := -5, snippet := "c1" },
           { entry := { id := some 2, source_file := "f", «section» := "s2",
                        content := "c2" }, score := 2, snippet := "c2" }]))
        { max_tokens := 8000, system_prompt := "", memory_max_results := 3,
          memory_min_score := 0 }
        { id := "s" } (some "q")).memory_results =
      [{ entry := { id := some 2, source_file := "f", «section» := "s2",
                    content := "c2" }, score := 2, snippet := "c2" }] ∧
    ((-5 : Rat) < 2) := by
  exact ⟨by decide, by decide⟩

/-- **C9 amended** — the `score >= memory_min_score` filter keeps only the
*worst* matches: under the BM25 lower-is-better convention, every result it
excludes has a strictly lower score, i.e. is ranked better (more relevant),
than every result it keeps. -/
theorem C9_threshold_amended (min_score : Rat) (results : List SearchResult)
    (r r' : SearchResult) (hr : r ∈ results)
    (hnot : r ∉ filterByScore min_score results)
    (hkept : r' ∈ filterByScore min_score results) :
    r.score < r'.score := by
  simp only [filterByScore, List.mem_filter, decide_eq_true_eq] at hnot hkept
  have h1 : ¬ min_score ≤ r.score := fun h => hnot ⟨hr, h⟩
  exact lt_of_lt_of_le (lt_of_not_le h1) hkept.2

/-- **C9 amended, witness** — the amended statement at the concrete score
pair (-5 excluded, 2 kept, threshold 0). -/
theorem C9_threshold_amended_witness :
    ({ entry := { id := some 1, source_file := "f", «section» := "s1",
                  content := "c1" }, score := -5, snippet := "c1" } :
        SearchResult).score <
    ({ entry := { id := some 2, source_file := "f", «section» := "s2",
                  content := "c2" }, score := 2, snippet := "c2" } :
        SearchResult).score :=
  C9_threshold_amended 0
    [{ entry := { id := some 1, source_file := "f", «section» := "s1",
                  content := "c1" }, score := -5, snippet := "c1" },
     { entry := { id := some 2, source_file := "f", «section» := "s2",
                  content := "c2" }, score := 2, snippet := "c2" }]
    _ _ (by decide) (by decide) (by decide)

/-- **C6** — counterexample to the claim as stated: the claim's parser
treats a line whose *first non-space* character is `#` as a heading, but
the code requires the `#` at column 0 (`line.startswith('#')`); on
`"  # A\nfoo"` the code emits no entry at all while the claim's algorithm
emits the section `"A"` with content `"foo"`. -/
theorem C6_parser_cex :
    parse_content "  # A\nfoo" "" = [] ∧
    spec_parse "  # A\nfoo" "" =
      [{ id := none, source_file := "", «section» := "A", content := "foo" }] :=
  ⟨by decide, by decide⟩

/-- The flush of `parse_content` at a section boundary agrees with the
per-section entry of the amended specification. -/
theorem flushSection_eq_toList (src : String) (sect : List Char)
    (cont : List (List Char)) :
    flushSection src sect cont = (sectionEntry src (sect, cont)).toList := by
  rcases Classical.em (cont = []) with h | h
  · subst h
    simp [flushSection, sectionEntry, joinNl, stripChars]
  · rcases Classical.em (sect = []) with hs | hs
    · simp [flushSection, sectionEntry, hs]
    · simp only [flushSection, sectionEntry, h, hs, ne_eq, not_false_eq_true,
        and_true, true_and, if_true]
      split <;> simp_all

/-- The accumulator loop of `parse_content` flushes the running section and
then processes the remaining lines block by block. -/
theorem parseLines_eq (src : String) :
    ∀ (lines : List (List Char)) (sect : List Char) (cont : List (List Char)),
    parseLines src sect cont lines =
      flushSection src sect
        (cont ++ lines.takeWhile (fun l => !startsWithHash l)) ++
      (sectionBlocks (lines.dropWhile (fun l => !startsWithHash l))).filterMap
        (sectionEntry src)
  | [], sect, cont => by
    simp [parseLines, sectionBlocks]
  | line :: rest, sect, cont => by
    by_cases h : startsWithHash line
    · rw [parseLines, if_pos h, parseLines_eq src rest (headingLabel line) []]
      have ht : (line :: rest).takeWhile (fun l => !startsWithHash l) = [] := by
        simp [List.takeWhile_cons, h]
      have hd : (line :: rest).dropWhile (fun l => !startsWithHash l) =
          line :: rest := by
        simp [List.dropWhile_cons, h]
      have hb : sectionBlocks (line :: rest) =
          (headingLabel line, rest.takeWhile (fun l => !startsWithHash l)) ::
            sectionBlocks (rest.dropWhile (fun l => !startsWithHash l)) := by
        simp [sectionBlocks, h]
      rw [ht, hd, List.append_nil, hb, List.filterMap_cons,
        flushSection_eq_toList src (headingLabel line), List.nil_append]
      cases hmk : sectionEntry src
          (headingLabel line, rest.takeWhile (fun l => !startsWithHash l)) <;>
        simp [hmk]
    · rw [parseLines, if_neg h, parseLines_eq src rest sect (cont ++ [line])]
      have ht : (line :: rest).takeWhile (fun l => !startsWithHash l) =
          line :: rest.takeWhile (fun l => !startsWithHash l) := by
        simp [List.takeWhile_cons, h]
      have hd : (line :: rest).dropWhile (fun l => !startsWithHash l) =
          rest.dropWhile (fun l => !startsWithHash l) := by
        simp [List.dropWhile_cons, h]
      rw [ht, hd, List.append_assoc]
      rfl

/-- Lines before the first column-0 heading contribute no section block. -/
theorem sectionBlocks_dropWhile :
    ∀ l : List (List Char),
    sectionBlocks (l.dropWhile (fun x => !startsWithHash x)) = sectionBlocks l
  | [] => rfl
  | x :: rest => by
    by_cases h : startsWithHash x
    · rw [List.dropWhile_cons]
      simp [h]
    · rw [List.dropWhile_cons]
      have : sectionBlocks (x :: rest) = sectionBlocks rest := by
        simp [sectionBlocks, h]
      simp only [h, Bool.not_false, if_true]
      rw [sectionBlocks_dropWhile rest, this]

/-- **C6 amended** — `parse_content` starts a new section exactly at each
line that begins with `#` *at column 0* (leading whitespace disqualifies a
heading), labels it with the line minus its leading `#` marks, trimmed,
accumulates the following non-heading lines as the body, and emits one
entry per section whose label is non-empty *and* whose trimmed body is
non-empty, discarding text before the first heading; the claim's concrete
scenario holds as stated. -/
theorem C6_parser_amended :
    (∀ content source_file,
      parse_content content source_file = amended_parse content source_file) ∧
    parse_content "# A\nfoo\n# B\nbar\n" "" =
      [{ id := none, source_file := "", «section» := "A", content := "foo" },
       { id := none, source_file := "", «section» := "B", content := "bar" }] := by
  constructor
  · intro content src
    rw [parse_content, amended_parse, parseLines_eq, sectionBlocks_dropWhile]
    simp [flushSection]
  · decide

/-- `count_messages` on a one-message list: the message plus the priming overhead. -/
theorem count_messages_singleton (enc : String → Nat) (m : Message) :
    count_messages enc [m] = count_message enc m + 3 := by
  simp [count_messages]

/-- `tokSum` unfolds over a cons cell. -/
theorem tokSum_cons (enc : String → Nat) (m : Message) (l : List Message) :
    tokSum enc (m :: l) = ((count_message enc m : Int) + 3) + tokSum enc l := by
  simp [tokSum]

/-- `tokSum` is invariant under reversal. -/
theorem tokSum_reverse (enc : String → Nat) (l : List Message) :
    tokSum enc l.reverse = tokSum enc l := by
  unfold tokSum
  rw [List.map_reverse, List.sum_reverse]

/-- `tokSum` against the plain `count_message` sum. -/
theorem tokSum_eq_sum (enc : String → Nat) (l : List Message) :
    tokSum enc l = ((l.map (count_message enc)).sum : Int) + 3 * l.length := by
  induction l with
  | nil => simp [tokSum]
  | cons m rest ih =>
    rw [tokSum_cons, ih, List.map_cons, List.sum_cons, List.length_cons]
    push_cast
    ring

/-- The greedy loop keeps a reversed prefix of its (reversed) input: the
kept block fits the available budget, and when the loop stopped early the
next message would have overflowed it. -/
theorem keepRecent_spec (enc : String → Nat) (avail : Int) :
    ∀ (l : List Message) (cur : Int), cur ≤ avail →
    ∃ k, k ≤ l.length ∧
      keepRecent enc avail cur l = (l.take k).reverse ∧
      cur + tokSum enc (l.take k) ≤ avail ∧
      (k < l.length → avail < cur + tokSum enc (l.take (k + 1)))
  | [], cur, h => ⟨0, by simp, by simp [keepRecent], by simpa [tokSum], by simp⟩
  | m :: rest, cur, h => by
    have ht : (count_messages enc [m] : Int) = (count_message enc m : Int) + 3 := by
      rw [count_messages_singleton]; push_cast; ring
    by_cases hc : cur + (count_messages enc [m] : Int) ≤ avail
    · obtain ⟨k, hk, he, hs, hb⟩ := keepRecent_spec enc avail rest
        (cur + (count_messages enc [m] : Int)) hc
      refine ⟨k + 1, by simpa using hk, ?_, ?_, ?_⟩
      · rw [keepRecent, if_pos hc, he, List.take_succ_cons, List.reverse_cons]
      · rw [List.take_succ_cons, tokSum_cons]
        omega
      · intro hlt
        have hlt' : k < rest.length := by simpa using hlt
        have := hb hlt'
        rw [List.take_succ_cons, tokSum_cons]
        omega
    · refine ⟨0, by simp, by rw [keepRecent, if_neg hc]; rfl,
        by simpa [tokSum], ?_⟩
      intro _
      rw [List.take_succ_cons, List.take_zero, tokSum_cons]
      simp only [tokSum, List.map_nil, List.sum_nil, add_zero]
      omega

/-- Structure of `_truncate_to_budget`: its output is the positional system
messages followed by a contiguous suffix of the conversation; when any
budget is left the suffix fits it, and a strictly longer suffix would not. -/
theorem truncate_structure (enc : String → Nat) (maxT : Int)
    (msgs : List Message) :
    ∃ n, n ≤ (partitionSys 0 msgs).2.length ∧
      (truncate_to_budget enc maxT msgs).1 =
        (partitionSys 0 msgs).1 ++ (partitionSys 0 msgs).2.drop n ∧
      (0 < maxT - (count_messages enc (partitionSys 0 msgs).1 : Int) →
        tokSum enc ((partitionSys 0 msgs).2.drop n) ≤
          maxT - (count_messages enc (partitionSys 0 msgs).1 : Int) ∧
        (0 < n →
          maxT - (count_messages enc (partitionSys 0 msgs).1 : Int) <
            tokSum enc ((partitionSys 0 msgs).2.drop (n - 1)))) := by
  by_cases h0 : msgs = []
  · subst h0
    refine ⟨0, by simp [partitionSys], ?_, ?_⟩
    · simp [truncate_to_budget, partitionSys]
    · intro hp
      refine ⟨?_, by omega⟩
      simpa [partitionSys, tokSum, count_messages] using le_of_lt hp
  · set sys := (partitionSys 0 msgs).1 with hsys
    set conv := (partitionSys 0 msgs).2 with hconv
    set avail : Int := maxT - (count_messages enc sys : Int) with havail
    by_cases hb : avail ≤ 0
    · refine ⟨conv.length, le_refl _, ?_, ?_⟩
      · rw [truncate_to_budget, if_neg h0]
        simp only [← hsys, ← hconv, ← havail, if_pos hb, List.drop_length,
          List.append_nil]
      · intro hpos
        exact absurd hpos (by omega)
    · have hb' : (0 : Int) ≤ avail := by omega
      obtain ⟨k, hk, he, hs, hbnd⟩ :=
        keepRecent_spec enc avail conv.reverse 0 hb'
      rw [List.length_reverse] at hk
      refine ⟨conv.length - k, by omega, ?_, ?_⟩
      · rw [truncate_to_budget, if_neg h0]
        simp only [← hsys, ← hconv, ← havail, if_neg hb]
        rw [he]
        congr 1
        have : (conv.reverse.take k).reverse = conv.rtake k :=
          (List.rtake_eq_reverse_take_reverse conv k).symm
        rw [this, List.rtake]
      · intro _
        constructor
        · have hdrop : conv.drop (conv.length - k) =
              (conv.reverse.take k).reverse := by
            rw [← List.rtake_eq_reverse_take_reverse, List.rtake]
          rw [hdrop, tokSum_reverse]
          omega
        · intro hn
          have hk' : k < conv.length := by omega
          have hk2 : k < conv.reverse.length := by simpa using hk'
          have := hbnd hk2
          have hdrop : conv.drop (conv.length - k - 1) =
              (conv.reverse.take (k + 1)).reverse := by
            rw [← List.rtake_eq_reverse_take_reverse, List.rtake, Nat.sub_sub]
          rw [hdrop, tokSum_reverse]
          omega

/-- `_truncate_to_budget` stays within the budget provided the protected
system messages themselves fit it. -/
theorem truncate_le (enc : String → Nat) (maxT : Int) (msgs : List Message)
    (hp : (count_messages enc (partitionSys 0 msgs).1 : Int) ≤ maxT) :
    ((truncate_to_budget enc maxT msgs).2 : Int) ≤ maxT := by
  by_cases h0 : msgs = []
  · subst h0
    simp only [partitionSys, count_messages, if_pos] at hp
    simpa [truncate_to_budget] using hp
  · set sys := (partitionSys 0 msgs).1 with hsys
    set conv := (partitionSys 0 msgs).2 with hconv
    set avail : Int := maxT - (count_messages enc sys : Int) with havail
    by_cases hb : avail ≤ 0
    · rw [truncate_to_budget, if_neg h0]
      simp only [← hsys, ← hconv, ← havail, if_pos hb]
      exact hp
    · obtain ⟨k, hk, he, hs, _⟩ :=
        keepRecent_spec enc avail conv.reverse 0 (by omega)
      rw [truncate_to_budget, if_neg h0]
      simp only [← hsys, ← hconv, ← havail, if_neg hb]
      rw [he]
      have hts : tokSum enc ((conv.reverse.take k).reverse) ≤ avail := by
        rw [tokSum_reverse]; omega
      by_cases hke : (conv.reverse.take k).reverse = []
      · rw [hke, List.append_nil]
        exact hp
      · have hlen : 1 ≤ ((conv.reverse.take k).reverse).length :=
          List.length_pos.mpr hke
        have hteq := tokSum_eq_sum enc ((conv.reverse.take k).reverse)
        by_cases hsys0 : sys = []
        · rw [hsys0, List.nil_append]
          have h1 : count_messages enc ((conv.reverse.take k).reverse) =
              (((conv.reverse.take k).reverse).map (count_message enc)).sum + 3 := by
            simp [count_messages, hke]
          have h0' : count_messages enc sys = 0 := by simp [hsys0, count_messages]
          rw [h1]
          rw [h0'] at havail
          omega
        · have happ : sys ++ (conv.reverse.take k).reverse ≠ [] := by
            simp [hsys0]
          have h1 : count_messages enc (sys ++ (conv.reverse.take k).reverse) =
              ((sys ++ (conv.reverse.take k).reverse).map
                (count_message enc)).sum + 3 := by
            simp [count_messages, happ]
          have h2 : ((sys ++ (conv.reverse.take k).reverse).map
                (count_message enc)).sum =
              (sys.map (count_message enc)).sum +
              (((conv.reverse.take k).reverse).map (count_message enc)).sum := by
            simp
          have h3 : count_messages enc sys =
              (sys.map (count_message enc)).sum + 3 := by
            simp [count_messages, hsys0]
          rw [h1, h2]
          rw [h3] at havail
          omega

/-- **C1** — counterexample to the claim as stated: with `max_tokens = 5`
and a 10-character system prompt, `build` truncates but the result is the
protected system message alone at 22 tokens, so `token_count` exceeds
`max_tokens` even though `truncated = true` (the `available_budget <= 0`
branch returns the protected messages regardless of the budget). -/
theorem C1_budget_cex :
    (build (fun s => s.length) none
      { max_tokens := 5, system_prompt := "SSSSSSSSSS",
        memory_max_results := 3, memory_min_score := 0 }
      { id := "s", messages := [{ role := "user", content := "hi" }] }
      none).truncated = true ∧
    ¬ (((build (fun s => s.length) none
      { max_tokens := 5, system_prompt := "SSSSSSSSSS",
        memory_max_results := 3, memory_min_score := 0 }
      { id := "s", messages := [{ role := "user", content := "hi" }] }
      none).token_count : Int) ≤ 5) :=
  ⟨by decide, by decide⟩

/-- **C1 amended** — whenever `build` truncates *and* the protected system
messages themselves fit the budget
(`count_messages(protected) <= max_tokens`), the recomputed `token_count`
is at most `config.max_tokens`; without that proviso the result is just the
protected messages and may exceed the budget. -/
theorem C1_budget_amended (enc : String → Nat)
    (memory : Option (SearchQuery → List SearchResult))
    (config : ContextConfig) (session : Session) (query : Option String)
    (ht : (build enc memory config session query).truncated = true)
    (hp : (count_messages enc
        (partitionSys 0 (assembleMessages memory config session query)).1 : Int) ≤
      config.max_tokens) :
    ((build enc memory config session query).token_count : Int) ≤
      config.max_tokens := by
  by_cases hgt : (count_messages enc
      (assembleMessages memory config session query) : Int) > config.max_tokens
  · simp only [build, if_pos hgt]
    exact truncate_le enc config.max_tokens _ hp
  · simp only [build, if_neg hgt] at ht
    exact absurd ht (by simp)

/-- **C1 amended, witness** — a concrete truncating build whose protected
part fits: the recomputed count stays within the budget of 25. -/
theorem C1_budget_amended_witness :
    ((build (fun s => s.length) none
      { max_tokens := 25, system_prompt := "",
        memory_max_results := 3, memory_min_score := 0 }
      { id := "s", messages := [{ role := "user", content := "aaaaaaaaaaaaaaaaaaaa" },
                                { role := "user", content := "bbbbb" }] }
      none).token_count : Int) ≤ 25 :=
  C1_budget_amended (fun s => s.length) none
    { max_tokens := 25, system_prompt := "",
      memory_max_results := 3, memory_min_score := 0 }
    { id := "s", messages := [{ role := "user", content := "aaaaaaaaaaaaaaaaaaaa" },
                              { role := "user", content := "bbbbb" }] }
    none (by decide) (by decide)

/-- **C2** — counterexample to the claim as stated: protection is by
*position and role* (`msg.role == "system" and i < 2`), not by "leading
system messages"; a system message sitting at index 1 behind a user message
is hoisted in front of the kept suffix, so the output is not the claimed
protected-leading-prefix followed by a contiguous suffix — here the result
`[system X]` is not a suffix of the conversation at all (the claim's
protected set for this input is empty). -/
theorem C2_truncation_cex :
    (build (fun s => s.length) none
      { max_tokens := 10, system_prompt := "",
        memory_max_results := 3, memory_min_score := 0 }
      { id := "s", messages :=
        [{ role := "user", content := "a" },
         { role := "system", content := "XXXXXXXXXXXXXXXXXXXX" },
         { role := "user", content := "b" }] }
      none).truncated = true ∧
    (build (fun s => s.length) none
      { max_tokens := 10, system_prompt := "",
        memory_max_results := 3, memory_min_score := 0 }
      { id := "s", messages :=
        [{ role := "user", content := "a" },
         { role := "system", content := "XXXXXXXXXXXXXXXXXXXX" },
         { role := "user", content := "b" }] }
      none).messages = [{ role := "system", content := "XXXXXXXXXXXXXXXXXXXX" }] ∧
    ¬ ([({ role := "system", content := "XXXXXXXXXXXXXXXXXXXX" } : Message)] <:+
        [{ role := "user", content := "a" },
         { role := "system", content := "XXXXXXXXXXXXXXXXXXXX" },
         { role := "user", content := "b" }]) :=
  ⟨by decide, by decide, by decide⟩

/-- **C2 amended** — whenever `build` truncates, the returned list is the
system-role messages found among the first two positions (in order)
followed by a contiguous suffix of the remaining messages in original
order; the suffix is greedy: it fits the remaining budget, and keeping one
more message would exceed it. -/
theorem C2_truncation_amended (enc : String → Nat)
    (memory : Option (SearchQuery → List SearchResult))
    (config : ContextConfig) (session : Session) (query : Option String)
    (ht : (build enc memory config session query).truncated = true) :
    ∃ n,
      n ≤ (partitionSys 0 (assembleMessages memory config session query)).2.length ∧
      (build enc memory config session query).messages =
        (partitionSys 0 (assembleMessages memory config session query)).1 ++
        (partitionSys 0 (assembleMessages memory config session query)).2.drop n ∧
      (0 < config.max_tokens - (count_messages enc
          (partitionSys 0 (assembleMessages memory config session query)).1 : Int) →
        tokSum enc
            ((partitionSys 0 (assembleMessages memory config session query)).2.drop n) ≤
          config.max_tokens - (count_messages enc
            (partitionSys 0 (assembleMessages memory config session query)).1 : Int) ∧
        (0 < n →
          config.max_tokens - (count_messages enc
            (partitionSys 0 (assembleMessages memory config session query)).1 : Int) <
          tokSum enc
            ((partitionSys 0 (assembleMessages memory config session query)).2.drop
              (n - 1)))) := by
  by_cases hgt : (count_messages enc
      (assembleMessages memory config session query) : Int) > config.max_tokens
  · simp only [build, if_pos hgt]
    exact truncate_structure enc config.max_tokens _
  · simp only [build, if_neg hgt] at ht
    exact absurd ht (by simp)

/-- **C2 amended, witness** — the amended structure at a concrete
truncating build with a leading system prompt and two user messages. -/
theorem C2_truncation_amended_witness :
    ∃ n,
      n ≤ (partitionSys 0 (assembleMessages none
        { max_tokens := 30, system_prompt := "Sys",
          memory_max_results := 3, memory_min_score := 0 }
        { id := "s", messages := [{ role := "user", content := "cccccccccc" },
                                  { role := "user", content := "ddd" }] }
        none)).2.length ∧
      (build (fun s => s.length) none
        { max_tokens := 30, system_prompt := "Sys",
          memory_max_results := 3, memory_min_score := 0 }
        { id := "s", messages := [{ role := "user", content := "cccccccccc" },
                                  { role := "user", content := "ddd" }] }
        none).messages =
        (partitionSys 0 (assembleMessages none
          { max_tokens := 30, system_prompt := "Sys",
            memory_max_results := 3, memory_min_score := 0 }
          { id := "s", messages := [{ role := "user", content := "cccccccccc" },
                                    { role := "user", content := "ddd" }] }
          none)).1 ++
        (partitionSys 0 (assembleMessages none
          { max_tokens := 30, system_prompt := "Sys",
            memory_max_results := 3, memory_min_score := 0 }
          { id := "s", messages := [{ role := "user", content := "cccccccccc" },
                                    { role := "user", content := "ddd" }] }
          none)).2.drop n ∧
      (0 < (30 : Int) - (count_messages (fun s => s.length)
          (partitionSys 0 (assembleMessages none
            { max_tokens := 30, system_prompt := "Sys",
              memory_max_results := 3, memory_min_score := 0 }
            { id := "s", messages := [{ role := "user", content := "cccccccccc" },
                                      { role := "user", content := "ddd" }] }
            none)).1 : Int) →
        tokSum (fun s => s.length)
            ((partitionSys 0 (assembleMessages none
              { max_tokens := 30, system_prompt := "Sys",
                memory_max_results := 3, memory_min_score := 0 }
              { id := "s", messages := [{ role := "user", content := "cccccccccc" },
                                        { role := "user", content := "ddd" }] }
              none)).2.drop n) ≤
          (30 : Int) - (count_messages (fun s => s.length)
            (partitionSys 0 (assembleMessages none
              { max_tokens := 30, system_prompt := "Sys",
                memory_max_results := 3, memory_min_score := 0 }
              { id := "s", messages := [{ role := "user", content := "cccccccccc" },
                                        { role := "user", content := "ddd" }] }
              none)).1 : Int) ∧
        (0 < n →
          (30 : Int) - (count_messages (fun s => s.length)
            (partitionSys 0 (assembleMessages none
              { max_tokens := 30, system_prompt := "Sys",
                memory_max_results := 3, memory_min_score := 0 }
              { id := "s", messages := [{ role := "user", content := "cccccccccc" },
                                        { role := "user", content := "ddd" }] }
              none)).1 : Int) <
          tokSum (fun s => s.length)
            ((partitionSys 0 (assembleMessages none
              { max_tokens := 30, system_prompt := "Sys",
                memory_max_results := 3, memory_min_score := 0 }
              { id := "s", messages := [{ role := "user", content := "cccccccccc" },
                                        { role := "user", content := "ddd" }] }
              none)).2.drop (n - 1)))) :=
  C2_truncation_amended (fun s => s.length) none
    { max_tokens := 30, system_prompt := "Sys",
      memory_max_results := 3, memory_min_score := 0 }
    { id := "s", messages := [{ role := "user", content := "cccccccccc" },
                              { role := "user", content := "ddd" }] }
    none (by decide)

/-- A stable sort of rows already ordered by timestamp is the identity. -/
theorem sortByTs_eq_self :
    ∀ l : List MsgRow,
    List.Chain' (fun a b => a.created_at ≤ b.created_at) l → sortByTs l = l
  | [], _ => rfl
  | [_], _ => rfl
  | x :: y :: xs, h => by
    obtain ⟨hxy, htail⟩ := List.chain'_cons.mp h
    rw [sortByTs, sortByTs_eq_self (y :: xs) htail, insertByTs, if_pos hxy]

/-- Enumeration indices are increasing. -/
theorem chain'_enumFrom {α : Type} :
    ∀ (l : List α) (n : Nat),
    List.Chain' (fun a b => a.1 ≤ b.1) (l.enumFrom n)
  | [], _ => List.chain'_nil
  | [_], _ => List.chain'_singleton _
  | _ :: m' :: rest, n => by
    rw [List.enumFrom]
    exact List.chain'_cons.mpr
      ⟨Nat.le_succ n, chain'_enumFrom (m' :: rest) (n + 1)⟩

/-- **C4** — save/load round trip: saving a session and loading it back by
id yields a session with the identical message sequence (order and
content), for every prior database state and every nondecreasing
`CURRENT_TIMESTAMP` clock (ties included). -/
theorem C4_save_load_roundtrip (db : SessionDB) (s : Session) (now : Nat)
    (ts : Nat → Nat) (hts : ∀ i j, i ≤ j → ts i ≤ ts j) :
    ∃ s', (db.save_session s now ts).load_session s.id = some s' ∧
      s'.messages = s.messages ∧ s'.id = s.id := by
  set row : SessRow :=
    { id := s.id, created_at := s.created_at.getD now,
      updated_at := s.updated_at.getD now, metadata := s.metadata } with hrow
  set newRows : List MsgRow := s.messages.enum.map (fun im =>
    { rowid := db.nextMsgId + im.1, session_id := s.id, role := im.2.role,
      content := im.2.content, metadata := im.2.metadata,
      created_at := ts im.1 }) with hnew
  have hfind : ((db.save_session s now ts).sessions.find?
      (fun r => r.id = s.id)) = some row := by
    show ((db.sessions.filter (fun r => r.id ≠ s.id) ++ [row]).find?
      (fun r => r.id = s.id)) = some row
    rw [List.find?_append]
    have h1 : (db.sessions.filter (fun r => r.id ≠ s.id)).find?
        (fun r => r.id = s.id) = none := by
      rw [List.find?_eq_none]
      intro x hx
      have := (List.mem_filter.mp hx).2
      simpa using this
    rw [h1]
    simp [hrow]
  have hfilter : ((db.save_session s now ts).messages.filter
      (fun r => r.session_id = s.id)) = newRows := by
    show ((db.messages.filter (fun r => r.session_id ≠ s.id) ++ newRows).filter
      (fun r => r.session_id = s.id)) = newRows
    rw [List.filter_append]
    have h1 : (db.messages.filter (fun r => r.session_id ≠ s.id)).filter
        (fun r => r.session_id = s.id) = [] := by
      rw [List.filter_eq_nil_iff]
      intro x hx
      have := (List.mem_filter.mp hx).2
      simpa using this
    have h2 : newRows.filter (fun r => r.session_id = s.id) = newRows := by
      rw [List.filter_eq_self]
      intro x hx
      obtain ⟨im, _, hxe⟩ := List.mem_map.mp hx
      subst hxe
      simp
    rw [h1, h2, List.nil_append]
  have hsorted : sortByTs newRows = newRows := by
    apply sortByTs_eq_self
    rw [hnew]
    exact (List.chain'_map _).mpr
      ((chain'_enumFrom s.messages 0).imp (fun a b h => hts _ _ h))
  have hback : newRows.map (fun r =>
      ({ role := r.role, content := r.content, metadata := r.metadata } :
        Message)) = s.messages := by
    rw [hnew, List.map_map]
    have hfun : ((fun r : MsgRow =>
        ({ role := r.role, content := r.content, metadata := r.metadata } :
          Message)) ∘ (fun im : Nat × Message =>
        ({ rowid := db.nextMsgId + im.1, session_id := s.id, role := im.2.role,
           content := im.2.content, metadata := im.2.metadata,
           created_at := ts im.1 } : MsgRow))) = Prod.snd := by
      funext im
      rfl
    rw [hfun, List.enum_map_snd]
  refine ⟨{ id := row.id,
            messages := (sortByTs ((db.save_session s now ts).messages.filter
              (fun r => r.session_id = s.id))).map (fun r =>
              { role := r.role, content := r.content, metadata := r.metadata }),
            created_at := some row.created_at,
            updated_at := some row.updated_at,
            metadata := row.metadata }, ?_, ?_, rfl⟩
  · rw [SessionDB.load_session, hfind]
  · rw [hfilter, hsorted, hback]

/-- **C4, witness** — a concrete two-message session saved into the empty
store and loaded back, with all timestamps tied. -/
theorem C4_save_load_roundtrip_witness :
    ∃ s', (SessionDB.empty.save_session
        { id := "sid", messages := [{ role := "user", content := "hello" },
                                    { role := "assistant", content := "hi" }] }
        7 (fun _ => 0)).load_session "sid" = some s' ∧
      s'.messages = [({ role := "user", content := "hello" } : Message),
                     { role := "assistant", content := "hi" }] ∧
      s'.id = "sid" :=
  C4_save_load_roundtrip SessionDB.empty
    { id := "sid", messages := [{ role := "user", content := "hello" },
                                { role := "assistant", content := "hi" }] }
    7 (fun _ => 0) (fun _ _ _ => Nat.le_refl 0)

/-- Entries flushed by the parser carry the source file they were parsed
from. -/
theorem flushSection_source (src : String) (sect : List Char)
    (cont : List (List Char)) :
    ∀ e ∈ flushSection src sect cont, e.source_file = src := by
  intro e he
  simp only [flushSection] at he
  split_ifs at he with h1 h2
  · simp at he
    subst he
    rfl
  · simp at he
  · simp at he

/-- All entries produced by the parser loop carry its source file. -/
theorem parseLines_source (src : String) :
    ∀ (lines : List (List Char)) (sect : List Char) (cont : List (List Char)),
    ∀ e ∈ parseLines src sect cont lines, e.source_file = src
  | [], sect, cont => by
    intro e he
    exact flushSection_source src sect cont e he
  | line :: rest, sect, cont => by
    intro e he
    rw [parseLines] at he
    split at he
    · rcases List.mem_append.mp he with h | h
      · exact flushSection_source src sect cont e h
      · exact parseLines_source src rest (headingLabel line) [] e h
    · exact parseLines_source src rest sect (cont ++ [line]) e he

/-- All entries of `parse_content doc src` have `source_file = src`. -/
theorem parse_content_source (doc src : String) :
    ∀ e ∈ parse_content doc src, e.source_file = src :=
  parseLines_source src (splitNl doc.data) [] []

/-- `insert` appends one entry to the per-source projection when the source
matches. -/
theorem entriesFor_insert (db : MemDB) (e : MemoryEntry) (p : String) :
    ((db.insert e).1).entriesFor p =
      db.entriesFor p ++
        (if e.source_file = p then [(e.«section», e.content, e.tags)] else []) := by
  unfold MemDB.insert MemDB.entriesFor
  rw [List.filter_append, List.map_append]
  congr 1
  split
  · next h => simp [h]
  · next h => simp [h]

/-- `index_file`'s insertion loop appends the parsed entries of the matching
source to the per-source projection. -/
theorem entriesFor_insertAll (p : String) :
    ∀ (es : List MemoryEntry) (db : MemDB),
    ((db.insertAll es).1).entriesFor p =
      db.entriesFor p ++
        (es.filter (fun e => e.source_file = p)).map
          (fun e => (e.«section», e.content, e.tags))
  | [], db => by simp [MemDB.insertAll]
  | e :: es, db => by
    rw [MemDB.insertAll]
    have := entriesFor_insertAll p es (db.insert e).1
    simp only at this ⊢
    rw [this, entriesFor_insert, List.filter_cons]
    split
    · next h => simp [h]
    · next h => simp [h]

/-- After deleting a source's rows, its per-source projection is empty. -/
theorem entriesFor_delete_self (db : MemDB) (p : String) :
    (db.deleteWhere (fun r => r.source_file = p)).entriesFor p = [] := by
  unfold MemDB.deleteWhere MemDB.entriesFor
  rw [List.filter_filter]
  have h : db.rows.filter
      (fun a => decide (a.source_file = p) && !(decide (a.source_file = p))) =
      db.rows.filter (fun _ => false) := by
    apply List.filter_congr
    intro r _
    cases decide (r.source_file = p) <;> rfl
  rw [h, List.filter_false, List.map_nil]

/-- After `reindex`, the store holds for that source exactly the entries of
the latest parse, independent of the prior state. -/
theorem entriesFor_reindex (db : MemDB) (p doc : String) :
    ((db.reindex p doc).1).entriesFor p =
      (parse_content doc p).map (fun e => (e.«section», e.content, e.tags)) := by
  unfold MemDB.reindex
  rw [entriesFor_insertAll, entriesFor_delete_self, List.nil_append]
  congr 1
  rw [List.filter_eq_self]
  intro e he
  simp [parse_content_source doc p e he]

/-- **C5** — idempotent reindex: calling `reindex(id, doc)` twice leaves
exactly the same entry set (section, content, tags) for that source id as
calling it once — both equal the entries of the latest parse, with no
duplicates. -/
theorem C5_reindex_idempotent (db : MemDB) (file_path doc : String) :
    ((((db.reindex file_path doc).1).reindex file_path doc).1).entriesFor
        file_path =
      ((db.reindex file_path doc).1).entriesFor file_path := by
  rw [entriesFor_reindex, entriesFor_reindex]

/-- `insert` (base insert plus the `memories_ai` trigger) preserves the
base/index consistency invariant. -/
theorem Inv_insert (db : MemDB) (e : MemoryEntry) (h : db.Inv) :
    ((db.insert e).1).Inv := by
  obtain ⟨hk, hn, hb⟩ := h
  refine ⟨?_, ?_, ?_⟩
  · simp only [MemDB.insert, List.map_append, hk]
    rfl
  · simp only [MemDB.insert, List.map_append]
    rw [List.nodup_append]
    refine ⟨hn, List.nodup_singleton _, ?_⟩
    intro x hx hx'
    obtain ⟨r, hr, hre⟩ := List.mem_map.mp hx
    simp only [List.map_cons, List.map_nil, List.mem_singleton] at hx'
    have := hb r hr
    omega
  · intro r hr
    simp only [MemDB.insert, List.mem_append, List.mem_singleton] at hr
    rcases hr with h | h
    · exact Nat.lt_succ_of_lt (hb r h)
    · subst h
      exact Nat.lt_succ_self _

/-- A `DELETE ... WHERE` (with the `memories_ad` trigger firing per row)
preserves the invariant. -/
theorem Inv_deleteWhere (db : MemDB) (p : MemRow → Bool) (h : db.Inv) :
    (db.deleteWhere p).Inv := by
  obtain ⟨hk, hn, hb⟩ := h
  have hinj : ∀ r ∈ db.rows, ∀ r' ∈ db.rows, r.id = r'.id → r = r' :=
    fun r hr r' hr' he => List.inj_on_of_nodup_map hn hr hr' he
  have hkey : ∀ r ∈ db.rows,
      (((db.rows.filter p).map (·.id)).contains r.id) = p r := by
    intro r hr
    by_cases hp : p r = true
    · have hm : r.id ∈ (db.rows.filter p).map (·.id) :=
        List.mem_map_of_mem _ (List.mem_filter.mpr ⟨hr, hp⟩)
      simp [hp, hm]
    · have hm : r.id ∉ (db.rows.filter p).map (·.id) := by
        intro hmem
        obtain ⟨r', hr', hre⟩ := List.mem_map.mp hmem
        obtain ⟨hr'm, hp'⟩ := List.mem_filter.mp hr'
        exact hp (hinj r hr r' hr'm hre.symm ▸ hp')
      simp only [Bool.not_eq_true] at hp
      simp [hp, hm]
  have hrows : ((db.rows.filter (fun r => !(p r))).map (·.id)) =
      (db.rows.map (·.id)).filter
        (fun k => !(((db.rows.filter p).map (·.id)).contains k)) := by
    rw [List.filter_map]
    congr 1
    apply List.filter_congr
    intro r hr
    simp only [Function.comp_apply, hkey r hr]
  have hfts : ((db.fts.filter
      (fun f => !(((db.rows.filter p).map (·.id)).contains f.rowid))).map
        (·.rowid)) =
      (db.fts.map (·.rowid)).filter
        (fun k => !(((db.rows.filter p).map (·.id)).contains k)) := by
    rw [List.filter_map]
    rfl
  refine ⟨?_, ?_, ?_⟩
  · unfold MemDB.deleteWhere
    rw [hfts, hk, ← hrows]
  · unfold MemDB.deleteWhere
    rw [hrows]
    exact hn.filter _
  · intro r hr
    unfold MemDB.deleteWhere at hr
    exact hb r (List.mem_filter.mp hr).1

/-- An `UPDATE ... WHERE` on non-key fields (with the `memories_au` trigger)
preserves the invariant. -/
theorem Inv_updateWhere (db : MemDB) (p : MemRow → Bool)
    (f : MemRow → String × String × List String) (h : db.Inv) :
    (db.updateWhere p f).Inv := by
  obtain ⟨hk, hn, hb⟩ := h
  have hrows : ((db.updateWhere p f).rows).map (·.id) = db.rows.map (·.id) := by
    unfold MemDB.updateWhere
    rw [List.map_map]
    apply List.map_congr_left
    intro r _
    by_cases hp : p r = true <;> simp [hp]
  have hfts : ((db.updateWhere p f).fts).map (·.rowid) =
      db.fts.map (·.rowid) := by
    unfold MemDB.updateWhere
    rw [List.map_map]
    apply List.map_congr_left
    intro fr _
    simp only [Function.comp_apply]
    cases db.rows.find? (fun r => r.id = fr.rowid && p r) <;> rfl
  refine ⟨by rw [hfts, hrows, hk], by rw [hrows]; exact hn, ?_⟩
  · intro r hr
    unfold MemDB.updateWhere at hr
    obtain ⟨r0, hr0, hre⟩ := List.mem_map.mp hr
    have : r.id = r0.id := by
      subst hre
      by_cases hp : p r0 = true <;> simp [hp]
    rw [this]
    exact hb r0 hr0

/-- The insertion loop of `index_file` preserves the invariant. -/
theorem Inv_insertAll :
    ∀ (es : List MemoryEntry) (db : MemDB), db.Inv → ((db.insertAll es).1).Inv
  | [], db, h => h
  | e :: es, db, h => by
    rw [MemDB.insertAll]
    exact Inv_insertAll es (db.insert e).1 (Inv_insert db e h)

/-- Every write operation preserves the invariant. -/
theorem Inv_applyOp (db : MemDB) (op : MemOp) (h : db.Inv) :
    (db.applyOp op).Inv := by
  cases op with
  | ins e => exact Inv_insert db e h
  | del p => exact Inv_deleteWhere db p h
  | upd p f => exact Inv_updateWhere db p f h
  | clr => exact Inv_deleteWhere db _ h
  | reidx fp doc =>
    exact Inv_insertAll _ _ (Inv_deleteWhere db _ h)

/-- **C8** — after every completed sequence of store operations (insert,
update, delete, clear, reindex) starting from a fresh schema, the FTS index
holds exactly one row per base row, keyed 1:1 by the entry id (equal key
sequences, no duplicate key): the triggers update the index on the write
path itself, so base table and index never diverge. -/
theorem C8_fts_base_sync (ops : List MemOp) : (MemDB.empty.applyOps ops).Inv := by
  have hstep : ∀ (ops : List MemOp) (db : MemDB), db.Inv → (db.applyOps ops).Inv := by
    intro ops
    induction ops with
    | nil => intro db h; exact h
    | cons op rest ih =>
      intro db h
      exact ih _ (Inv_applyOp db op h)
  exact hstep ops MemDB.empty ⟨rfl, List.nodup_nil, by intro r hr; simp [MemDB.empty] at hr⟩

/-- Reading a cell just written returns the written value. -/
theorem PyHeap.read_write_eq (h : PyHeap) (a : Nat) (v : List Message)
    (ha : a < h.cells.length) : (h.write a v).read a = v := by
  simp [PyHeap.read, PyHeap.write, List.getD, List.getElem?_set_eq_of_lt v ha]

/-- Writing one cell leaves every other cell unchanged. -/
theorem PyHeap.read_write_ne (h : PyHeap) (a b : Nat) (v : List Message)
    (hab : a ≠ b) : (h.write a v).read b = h.read b := by
  simp [PyHeap.read, PyHeap.write, List.getD, List.getElem?_set_ne hab]

/-- Allocation leaves existing cells unchanged. -/
theorem PyHeap.read_alloc_lt (h : PyHeap) (v : List Message) (b : Nat)
    (hb : b < h.cells.length) : ((h.alloc v).1).read b = h.read b := by
  simp only [PyHeap.read, PyHeap.alloc, List.getD, List.get?_eq_getElem?]
  rw [List.getElem?_append_left hb]

/-- Reading a freshly allocated cell returns its initial value. -/
theorem PyHeap.read_alloc_self (h : PyHeap) (v : List Message) :
    ((h.alloc v).1).read (h.alloc v).2 = v := by
  simp [PyHeap.read, PyHeap.alloc, List.getD, List.getElem?_concat_length]

/-- Writing preserves the heap size. -/
theorem PyHeap.write_length (h : PyHeap) (a : Nat) (v : List Message) :
    (h.write a v).cells.length = h.cells.length := by
  simp [PyHeap.write]

/-- **C10** — frame property of `build`: running the heap-explicit `build`
leaves the session's message-list cell exactly as it was (all writes target
the freshly allocated local lists), and the returned `BuiltContext` is the
pure `build` of the session read from that cell. -/
theorem C10_build_frame (enc : String → Nat)
    (memory : Option (SearchQuery → List SearchResult))
    (config : ContextConfig) (query : Option String)
    (h0 : PyHeap) (sessAddr : Nat) (sid : String)
    (hlt : sessAddr < h0.cells.length) :
    (buildProg enc memory config query h0 sessAddr).2.read sessAddr =
      h0.read sessAddr ∧
    (buildProg enc memory config query h0 sessAddr).1 =
      build enc memory config { id := sid, messages := h0.read sessAddr }
        query := by
  set mA : Nat := (h0.alloc ([] : List Message)).2 with hmA
  have hmAval : mA = h0.cells.length := rfl
  have hne : mA ≠ sessAddr := by omega
  set h1 : PyHeap := (h0.alloc ([] : List Message)).1 with hh1
  have h1len : h1.cells.length = h0.cells.length + 1 := by
    simp [hh1, PyHeap.alloc]
  have hmAlt : mA < h1.cells.length := by omega
  have h1mA : h1.read mA = [] := PyHeap.read_alloc_self h0 []
  have h1s : h1.read sessAddr = h0.read sessAddr :=
    PyHeap.read_alloc_lt h0 [] sessAddr hlt
  set sysL : List Message :=
    (if config.system_prompt ≠ "" then
      [{ role := "system", content := config.system_prompt }] else []) with hsysL
  set h2 : PyHeap := h1.write mA (h1.read mA ++ sysL) with hh2
  have h2len : h2.cells.length = h1.cells.length := PyHeap.write_length ..
  have h2mA : h2.read mA = sysL := by
    rw [hh2, PyHeap.read_write_eq h1 mA _ hmAlt, h1mA, List.nil_append]
  have h2s : h2.read sessAddr = h0.read sessAddr := by
    rw [hh2, PyHeap.read_write_ne h1 mA sessAddr _ hne, h1s]
  set memRes := assembleMemoryResults memory config query with hmemRes
  set memL : List Message :=
    (if memRes ≠ [] then
      [{ role := "system",
         content := "Relevant information:\n" ++
           format_memory_results memRes }]
    else []) with hmemL
  set h3 : PyHeap := h2.write mA (h2.read mA ++ memL) with hh3
  have h3len : h3.cells.length = h2.cells.length := PyHeap.write_length ..
  have h3mA : h3.read mA = sysL ++ memL := by
    rw [hh3, PyHeap.read_write_eq h2 mA _ (by omega), h2mA]
  have h3s : h3.read sessAddr = h0.read sessAddr := by
    rw [hh3, PyHeap.read_write_ne h2 mA sessAddr _ hne, h2s]
  set h4 : PyHeap := h3.write mA (h3.read mA ++ h3.read sessAddr) with hh4
  have h4len : h4.cells.length = h3.cells.length := PyHeap.write_length ..
  have h4mA : h4.read mA =
      assembleMessages memory config
        { id := sid, messages := h0.read sessAddr } query := by
    rw [hh4, PyHeap.read_write_eq h3 mA _ (by omega), h3mA, h3s]
    rfl
  have h4s : h4.read sessAddr = h0.read sessAddr := by
    rw [hh4, PyHeap.read_write_ne h3 mA sessAddr _ hne, h3s]
  rw [buildProg]
  simp only [← hh1, ← hmA, ← hsysL, ← hh2, ← hmemRes, ← hmemL, ← hh3, ← hh4]
  rw [h4mA, build]
  by_cases hgt : ((count_messages enc (assembleMessages memory config
      { id := sid, messages := h0.read sessAddr } query) : Int) >
      config.max_tokens)
  · rw [if_pos hgt, if_pos hgt]
    constructor
    · rw [PyHeap.read_alloc_lt _ _ sessAddr (by omega), h4s]
    · simp only [PyHeap.read_alloc_self]
  · rw [if_neg hgt, if_neg hgt]
    exact ⟨h4s, rfl⟩

/-- **C10, witness** — the frame property on a concrete one-cell heap
holding a one-message session. -/
theorem C10_build_frame_witness :
    (buildProg (fun s => s.length) none
      { max_tokens := 100, system_prompt := "Hi",
        memory_max_results := 3, memory_min_score := 0 }
      none ⟨[[{ role := "user", content := "hello" }]]⟩ 0).2.read 0 =
      PyHeap.read ⟨[[{ role := "user", content := "hello" }]]⟩ 0 ∧
    (buildProg (fun s => s.length) none
      { max_tokens := 100, system_prompt := "Hi",
        memory_max_results := 3, memory_min_score := 0 }
      none ⟨[[{ role := "user", content := "hello" }]]⟩ 0).1 =
      build (fun s => s.length) none
        { max_tokens := 100, system_prompt := "Hi",
          memory_max_results := 3, memory_min_score := 0 }
        { id := "sid",
          messages := PyHeap.read ⟨[[{ role := "user", content := "hello" }]]⟩ 0 }
        none :=
  C10_build_frame (fun s => s.length) none
    { max_tokens := 100, system_prompt := "Hi",
      memory_max_results := 3, memory_min_score := 0 }
    none ⟨[[{ role := "user", content := "hello" }]]⟩ 0 "sid" (by decide)
